import Mathlib

/-!
Verification of the claude-dash analytics core against its specification.

The Python source is shallowly embedded: pure numeric code is translated to
functions over `ℚ` (exact rational arithmetic in place of IEEE doubles; all
constants appearing in the program are exactly representable and all compared
quantities are rationals with small denominators, so branch decisions agree
with the floating-point program), timestamps become natural numbers counting
seconds since the epoch, and Python code that can raise is modelled with
`Option` (`none` = exception).  Dead computations (values computed by the
source but never used in any result, e.g. standard deviations that are
overwritten before use) are omitted; this is noted at each definition.
-/

namespace ClaudeDash

/-! ## Bayesian limit estimator (`core/bayesian_limits.py`) -/

/-- Belief about a limit: a Beta distribution scaled by `scale`
(`LimitBelief` dataclass). -/
structure LimitBelief where
  alpha : ℚ
  beta : ℚ
  scale : ℚ
  deriving DecidableEq, Repr

/-- Mean of the scaled Beta belief: `alpha / (alpha + beta) * scale`
(`LimitBelief.mean`). -/
def LimitBelief.mean (b : LimitBelief) : ℚ :=
  b.alpha / (b.alpha + b.beta) * b.scale

/-- `LimitBelief.update`: normalize the observation by `scale`; if the
normalized value is strictly greater than 0.9 add (2.0, 0.5) to (alpha, beta);
else if strictly greater than 0.8 add (1.5, 1.0); otherwise add (0.5, 2.0).
The comparisons in the source are `normalized > 0.9` and `normalized > 0.8`
(strict). -/
def LimitBelief.update (b : LimitBelief) (observation : ℚ) : LimitBelief :=
  let normalized := observation / b.scale
  if normalized > 9/10 then
    { b with alpha := b.alpha + 2, beta := b.beta + 1/2 }
  else if normalized > 8/10 then
    { b with alpha := b.alpha + 3/2, beta := b.beta + 1 }
  else
    { b with alpha := b.alpha + 1/2, beta := b.beta + 2 }

/-- The three metrics tracked by the estimator. -/
inductive Metric where
  | tokens
  | messages
  | prompts
  deriving DecidableEq, Repr

/-- Container for the three limit beliefs (`SessionLimits` dataclass),
represented as a function from metric to belief. -/
def SessionLimits := Metric → LimitBelief

/-- Prior beliefs for the max20x plan
(`BayesianLimitEstimator._initialize_priors`, scales are the upper ends of
the documented ranges). -/
def priorsMax20x : SessionLimits := fun m =>
  match m with
  | .tokens => ⟨4, 2, 400000⟩
  | .messages => ⟨8, 2, 2000⟩
  | .prompts => ⟨6, 3, 800⟩

/-- One per-metric prediction: `some h` is a finite number of hours,
`none` stands for Python `float('inf')`. -/
def Prediction := Option ℚ

/-- Comparison of predictions, with `none` as positive infinity: mirrors the
ordering used by Python `min` over the predictions dictionary. -/
def predLt (a b : Option ℚ) : Bool :=
  match a, b with
  | none, _ => false
  | some _, none => true
  | some x, some y => decide (x < y)

/-- Per-metric prediction of `BayesianLimitEstimator.predict_limit_times`:
`remaining = mean estimate - current usage`; if the burn rate is positive the
prediction is `max 0 (remaining / rate)` hours, otherwise infinite.  The
credible intervals and standard deviations computed by
`get_estimated_limits` do not feed into the prediction and are omitted. -/
def predictMetric (limits : SessionLimits) (usage rate : Metric → ℚ)
    (m : Metric) : Option ℚ :=
  if rate m > 0 then
    some (max 0 (((limits m).mean - usage m) / rate m))
  else
    none

/-- The limiting factor: the first metric (in the iteration order tokens,
messages, prompts of the predictions dictionary) whose prediction is minimal,
exactly as Python `min(predictions.keys(), key=...)` selects it. -/
def limitingFactor (limits : SessionLimits) (usage rate : Metric → ℚ) : Metric :=
  let p := predictMetric limits usage rate
  let best1 := if predLt (p .messages) (p .tokens) then Metric.messages else Metric.tokens
  if predLt (p .prompts) (p (best1)) then Metric.prompts else best1

/-- `predictions["time_to_limit"]`: the prediction of the limiting factor. -/
def timeToLimit (limits : SessionLimits) (usage rate : Metric → ℚ) : Option ℚ :=
  predictMetric limits usage rate (limitingFactor limits usage rate)

/-! ## Adaptive bounds calculator (`core/adaptive_bounds.py`) -/

/-- Usage-pattern label. -/
inductive Pattern where
  | simple
  | moderate
  | complex
  | mixed
  deriving DecidableEq, Repr

/-- Result of `calculate_bounds` (`PromptBounds` dataclass).  The counts are
integers because the source truncates with `int(...)`. -/
structure PromptBounds where
  lower : ℤ
  expected : ℤ
  upper : ℤ
  confidence_level : ℚ
  pattern : Pattern
  deriving DecidableEq, Repr

/-- Pattern of one observation (`add_prompt`): simple if at most the simple
threshold 3, complex if at least the complex threshold 9, else moderate. -/
def categorize (c : ℚ) : Pattern :=
  if c ≤ 3 then .simple else if c ≥ 9 then .complex else .moderate

/-- The last `n` elements of a list (Python slicing `l[-n:]`). -/
def lastN (n : ℕ) (l : List α) : List α :=
  l.drop (l.length - n)

/-- Per-pattern default multipliers (`pattern_defaults`). -/
def patternDefault : Pattern → ℚ
  | .simple => 3
  | .moderate => 7
  | .complex => 18
  | .mixed => 10

/-- `get_current_pattern` over the pattern history (oldest first): mixed with
fewer than 3 observations; otherwise the first pattern among simple,
moderate, complex holding at least 60% of the last 10 observations, else
mixed.  The ratio test `count / total >= 0.6` is stated as
`5 * count ≥ 3 * total`; both sides are small integers so the rational and
floating-point comparisons agree. -/
def currentPattern (patterns : List Pattern) : Pattern :=
  if patterns.length < 3 then .mixed
  else
    let recent := lastN 10 patterns
    let s := recent.count .simple
    let m := recent.count .moderate
    let c := recent.count .complex
    let total := s + m + c
    if 5 * s ≥ 3 * total then .simple
    else if 5 * m ≥ 3 * total then .moderate
    else if 5 * c ≥ 3 * total then .complex
    else .mixed

/-- Linear-interpolation percentile as computed by `np.percentile` with the
default method: on the ascending sort of the data, the virtual position is
`(n - 1) * p / 100` and the value is interpolated between the two adjacent
order statistics.  `np.median` coincides with the 50th percentile. -/
def percentile (l : List ℚ) (p : ℚ) : ℚ :=
  let s := l.insertionSort (· ≤ ·)
  let n := s.length
  if n = 0 then 0
  else
    let pos : ℚ := ((n : ℚ) - 1) * p / 100
    let i : ℕ := (Int.floor pos).toNat
    let frac : ℚ := pos - (i : ℚ)
    let a := s.getD i 0
    let b := s.getD (min (i + 1) (n - 1)) 0
    a + frac * (b - a)

/-- Point-estimate multiplier of `calculate_bounds` over the recent
multiplier history (oldest first, the contents of the `recent_multipliers`
deque): the pattern default with fewer than 5 observations, otherwise the
median of the last 10 observations after IQR outlier filtering (reverting to
the unfiltered data if filtering empties the set).  The mean, standard
deviation and percentile spreads computed alongside are dead values — the
final clamp overwrites the bounds they produce — and are omitted. -/
def pointEstimate (history : List ℚ) : ℚ :=
  let pattern := currentPattern (history.map categorize)
  if history.length < 5 then patternDefault pattern
  else
    let recent := lastN 10 history
    let q1 := percentile recent 25
    let q3 := percentile recent 75
    let iqr := q3 - q1
    let filtered := recent.filter (fun x => q1 - 3/2 * iqr ≤ x ∧ x ≤ q3 + 3/2 * iqr)
    let f := if filtered.isEmpty then recent else filtered
    percentile f 50

/-- Truncation toward zero, the semantics of Python `int(...)` on a float. -/
def truncQ (q : ℚ) : ℤ :=
  if 0 ≤ q then Int.floor q else Int.ceil q

/-- `AdaptiveBoundsCalculator.calculate_bounds`, as a function of the
contents of the `recent_multipliers` deque (oldest first; `pattern_history`
holds `categorize` of each element, as the two deques are appended in
lockstep by `add_prompt`).  After the dead statistical spread, the final
multipliers are `max 1 (0.9 * m)` and `1.1 * m` around the point estimate
`m`; if the upper multiplier is below the lower they are swapped, and the
message limit is divided by each.  `none` models the `ZeroDivisionError`
Python raises in `int(message_limit / lower_mult)` when the divisor is 0. -/
def calculateBounds (history : List ℚ) (messageLimit : ℤ) (promptsUsed : ℤ)
    (confidence : ℚ) : Option PromptBounds :=
  let pattern := currentPattern (history.map categorize)
  let m := pointEstimate history
  let lowerMult := max 1 (m * (9/10))
  let upperMult := m * (11/10)
  let p := if upperMult < lowerMult then (upperMult, lowerMult) else (lowerMult, upperMult)
  if p.1 = 0 then none
  else
    let totalUpper := truncQ ((messageLimit : ℚ) / p.1)
    let totalExpected := if m > 0 then truncQ ((messageLimit : ℚ) / m) else 0
    let totalLower := truncQ ((messageLimit : ℚ) / p.2)
    some
      { lower := max 0 (totalLower - promptsUsed)
        expected := max 0 (totalExpected - promptsUsed)
        upper := max 0 (totalUpper - promptsUsed)
        confidence_level := confidence
        pattern := pattern }

/-- The bounds computation as claim C1 words it: the lower multiplier used
for division is `max 1 (0.9 * m)` and the upper is `1.1 * m`, with no
further adjustment, independently of the confidence argument and of the
statistical spread. -/
def calculateBoundsClaimC1 (history : List ℚ) (messageLimit : ℤ)
    (promptsUsed : ℤ) (confidence : ℚ) : Option PromptBounds :=
  let pattern := currentPattern (history.map categorize)
  let m := pointEstimate history
  let lowerMult := max 1 (m * (9/10))
  let upperMult := m * (11/10)
  if lowerMult = 0 then none
  else
    some
      { lower := max 0 (truncQ ((messageLimit : ℚ) / upperMult) - promptsUsed)
        expected := max 0 ((if m > 0 then truncQ ((messageLimit : ℚ) / m) else 0) - promptsUsed)
        upper := max 0 (truncQ ((messageLimit : ℚ) / lowerMult) - promptsUsed)
        confidence_level := confidence
        pattern := pattern }

/-! ## Usage reader (`providers/claude_code_reader.py`) -/

/-- Token counters of a usage record; missing keys read as 0 via `.get`. -/
structure UsageData where
  input_tokens : ℕ
  output_tokens : ℕ
  cache_creation : ℕ
  cache_read : ℕ
  deriving DecidableEq, Repr

/-- Entry type tag; the source only ever compares the `type` string against
`'user'` and `'assistant'`, so all other strings collapse to `other`. -/
inductive EType where
  | user
  | assistant
  | other
  deriving DecidableEq, Repr

/-- First element of a list-shaped `message.content`: a dict with optional
`type` and `text` keys, or any non-dict value. -/
inductive ContentElem where
  | cdict (ctype : Option String) (ctext : Option String)
  | cnondict
  deriving DecidableEq, Repr

/-- Shape of `message.content`: a string, a list, or absent/other. -/
inductive Content where
  | cstr (s : String)
  | clist (items : List ContentElem)
  | cnone
  deriving DecidableEq, Repr

/-- Normalized entry as stored by `_load_usage_entries`.  `usage = none`
models an absent or empty usage dict (both falsy in Python). -/
structure Entry where
  timestamp : ℕ
  etype : EType
  usage : Option UsageData
  content : Content
  message_id : Option String
  request_id : Option String
  deriving DecidableEq, Repr

/-- Parsed JSONL line before timestamp validation: as `Entry` but the
timestamp may be missing.  `message_id`/`request_id` are the already
resolved identifiers (`entry.get('message_id') or message.get('id')`,
`entry.get('requestId') or entry.get('request_id')`). -/
structure RawEntry where
  timestamp : Option ℕ
  etype : EType
  usage : Option UsageData
  content : Content
  message_id : Option String
  request_id : Option String
  deriving DecidableEq, Repr

/-- One line of a JSONL file; `none` is a blank or malformed line (skipped
by the `json.JSONDecodeError` handler). -/
def LogLine := Option RawEntry

/-- Both identifiers present and truthy (`if message_id and request_id`):
Python treats `None` and the empty string as falsy. -/
def hasIds (e : RawEntry) : Bool :=
  match e.message_id, e.request_id with
  | some m, some r => !(m = "") && !(r = "")
  | _, _ => false

/-- Deduplication hash `f"{message_id}:{request_id}"` (only consulted when
`hasIds` holds). -/
def dedupKey (e : RawEntry) : String :=
  (e.message_id.getD "") ++ ":" ++ (e.request_id.getD "")

/-- Does the usage dict carry at least one nonzero token counter
(the `any([...])` filter for assistant entries)? -/
def usageNonzero : Option UsageData → Bool
  | none => false
  | some u =>
    decide (0 < u.input_tokens) || decide (0 < u.output_tokens) ||
    decide (0 < u.cache_creation) || decide (0 < u.cache_read)

/-- Validation and normalization of one parsed line, after dedup
bookkeeping: requires a timestamp, applies the optional lookback cutoff, and
discards assistant entries with an empty usage dict or all-zero counters. -/
def acceptEntry (cutoff : Option ℕ) (e : RawEntry) : Option Entry :=
  match e.timestamp with
  | none => none
  | some ts =>
    if (match cutoff with | some c => decide (ts < c) | none => false) then none
    else if e.etype = .assistant && e.usage = none then none
    else if e.etype = .assistant && !usageNonzero e.usage then none
    else some ⟨ts, e.etype, e.usage, e.content, e.message_id, e.request_id⟩

/-- The per-line loop of `_load_usage_entries`: lines in file order, `seen`
the set of dedup hashes.  A line with both identifiers is skipped when its
hash was seen, and records its hash before timestamp validation (exactly as
in the source, where `seen_hashes.add` precedes the timestamp parse). -/
def loadLines (cutoff : Option ℕ) : List LogLine → List String → List Entry
  | [], _ => []
  | l :: rest, seen =>
    match l with
    | none => loadLines cutoff rest seen
    | some e =>
      if hasIds e then
        if dedupKey e ∈ seen then loadLines cutoff rest seen
        else
          match acceptEntry cutoff e with
          | none => loadLines cutoff rest (dedupKey e :: seen)
          | some ne => ne :: loadLines cutoff rest (dedupKey e :: seen)
      else
        match acceptEntry cutoff e with
        | none => loadLines cutoff rest seen
        | some ne => ne :: loadLines cutoff rest seen

/-- `_load_usage_entries`: process all lines, then sort by timestamp.
Python's `list.sort` is stable, and so is insertion sort with `≤`: both
produce the unique stable ascending reordering. -/
def loadUsageEntries (cutoff : Option ℕ) (lines : List LogLine) : List Entry :=
  (loadLines cutoff lines []).insertionSort (fun a b => a.timestamp ≤ b.timestamp)

/-- Session block state (`SessionBlock`), restricted to the fields the
claims observe; cost and per-model statistics are aggregated by the source
but never feed into any claimed output and are omitted. -/
structure SessionBlockM where
  start_time : ℕ
  end_time : ℕ
  actual_end_time : Option ℕ
  is_active : Bool
  input_tokens : ℕ
  output_tokens : ℕ
  cache_creation_tokens : ℕ
  cache_read_tokens : ℕ
  total_tokens : ℕ
  entries : List Entry
  sent_messages_count : ℕ
  user_prompt_count : ℕ
  assistant_message_count : ℕ
  multiplication_factor : ℚ
  prompt_timestamps : List ℕ
  deriving DecidableEq, Repr

/-- Fresh block (`SessionBlock.__init__`): zero counters, inactive, and the
hard-coded default multiplication factor 7.7. -/
def mkBlock (start stop : ℕ) : SessionBlockM where
  start_time := start
  end_time := stop
  actual_end_time := none
  is_active := false
  input_tokens := 0
  output_tokens := 0
  cache_creation_tokens := 0
  cache_read_tokens := 0
  total_tokens := 0
  entries := []
  sent_messages_count := 0
  user_prompt_count := 0
  assistant_message_count := 0
  multiplication_factor := 77/10
  prompt_timestamps := []

/-- Rounding a timestamp down to the top of the hour
(`_round_to_hour`, `replace(minute=0, second=0, microsecond=0)`). -/
def roundToHour (t : ℕ) : ℕ := t / 3600 * 3600

/-- Midnight of the current UTC day
(`now.replace(hour=0, minute=0, second=0, microsecond=0)`). -/
def todayMidnight (now : ℕ) : ℕ := now / 86400 * 86400

/-- Is the entry structurally a tool result: list content whose first
element is a dict with `type == 'tool_result'`. -/
def isToolResult : Content → Bool
  | .clist (.cdict (some t) _ :: _) => t = "tool_result"
  | _ => false

/-- Text payload of the content: the `text` key of the first dict element of
a list, the string itself for string content, empty otherwise. -/
def textContent : Content → String
  | .clist (.cdict _ (some t) :: _) => t
  | .cstr s => s
  | _ => ""

/-- Noise-marker prefixes excluded from prompt counting (`skip_patterns`;
the interrupt marker appears twice in the source list). -/
def skipPatterns : List String :=
  ["[Request interrupted",
   "(no content)",
   "Caveat: The messages below",
   "<user-memory-input>",
   "This session is being continued from a previous conversation",
   "Analysis:",
   "Summary:",
   "Key technical patterns:",
   "Important errors and fixes:",
   "Looking at this conversation",
   "Primary Request and Intent:",
   "Files and Code Sections:",
   "Problem Solving:",
   "Pending Tasks:",
   "Current Work:",
   "Optional Next Step:",
   "[Request interrupted"]

/-- The genuine-prompt test on the extracted text: nonempty, not
whitespace-only, no noise-marker prefix, and shorter than 500 characters. -/
def isCountablePrompt (text : String) : Bool :=
  !(text = "") && !(text.trim = "") &&
  !(skipPatterns.any (fun p => text.startsWith p)) &&
  decide (text.length < 500)

/-- Token aggregation of `_add_entry_to_block` (reached unless the
active-block previous-day filter returned early): entries with an
absent/empty usage dict contribute nothing; `total_tokens` is recomputed as
input plus output. -/
def addUsage (b : SessionBlockM) (e : Entry) : SessionBlockM :=
  match e.usage with
  | none => b
  | some u =>
    { b with
      input_tokens := b.input_tokens + u.input_tokens
      output_tokens := b.output_tokens + u.output_tokens
      cache_creation_tokens := b.cache_creation_tokens + u.cache_creation
      cache_read_tokens := b.cache_read_tokens + u.cache_read
      total_tokens := (b.input_tokens + u.input_tokens) + (b.output_tokens + u.output_tokens) }

/-- `_add_entry_to_block`: the entry is always appended to the block's entry
list; user entries that are not tool results are either dropped early (for
an active block, when the timestamp predates today's midnight — skipping
token aggregation too, as the source's early `return` does) or counted as a
genuine prompt when the text passes `isCountablePrompt`; assistant entries
increment the assistant-message counter; finally usage is aggregated. -/
def addEntryToBlock (now : ℕ) (b : SessionBlockM) (e : Entry) : SessionBlockM :=
  let b1 := { b with entries := b.entries ++ [e] }
  match e.etype with
  | .user =>
    if isToolResult e.content then addUsage b1 e
    else if b1.is_active && decide (e.timestamp < todayMidnight now) then b1
    else if isCountablePrompt (textContent e.content) then
      addUsage
        { b1 with
          user_prompt_count := b1.user_prompt_count + 1
          prompt_timestamps := b1.prompt_timestamps ++ [e.timestamp] } e
    else addUsage b1 e
  | .assistant =>
    addUsage { b1 with assistant_message_count := b1.assistant_message_count + 1 } e
  | .other => addUsage b1 e

/-- Creation of a block during full rebuild (`_create_session_blocks`):
start is the triggering entry's timestamp rounded down to the hour, end is
start plus the session duration (`h` hours), and the entry is added. -/
def startBlock (h now : ℕ) (e : Entry) : SessionBlockM :=
  addEntryToBlock now
    (mkBlock (roundToHour e.timestamp) (roundToHour e.timestamp + h * 3600)) e

/-- The entry loop of `_create_session_blocks`: a new block is opened
whenever the entry's timestamp is at or past the current block's end. -/
def buildAux (h now : ℕ) : List Entry → SessionBlockM → List SessionBlockM
  | [], cur => [cur]
  | e :: rest, cur =>
    if cur.end_time ≤ e.timestamp then
      cur :: buildAux h now rest (startBlock h now e)
    else
      buildAux h now rest (addEntryToBlock now cur e)

/-- Finalization of a rebuilt block: record the last entry's timestamp and
the message count, recompute the multiplication factor only when at least
one user prompt was counted, and mark the block active when its window has
not closed (`block.end_time > now`). -/
def finalizeBlock (now : ℕ) (b : SessionBlockM) : SessionBlockM :=
  match b.entries.getLast? with
  | none => b
  | some last =>
    { b with
      actual_end_time := some last.timestamp
      sent_messages_count := b.entries.length
      multiplication_factor :=
        if 0 < b.user_prompt_count then
          (b.assistant_message_count : ℚ) / (b.user_prompt_count : ℚ)
        else b.multiplication_factor
      is_active := decide (now < b.end_time) }

/-- `_create_session_blocks`: full rebuild of the block list from an entry
sequence. -/
def createSessionBlocks (h now : ℕ) : List Entry → List SessionBlockM
  | [] => []
  | e :: rest => (buildAux h now rest (startBlock h now e)).map (finalizeBlock now)

/-- Assignment step of `_merge_new_entries`: add the entry and extend the
block's end time when the timestamp lies past it. -/
def addAndMaybeExtend (now : ℕ) (b : SessionBlockM) (e : Entry) : SessionBlockM :=
  let b' := addEntryToBlock now b e
  if b.end_time < e.timestamp then { b' with end_time := e.timestamp } else b'

/-- First loop of `_merge_new_entries`: assign the entry to the first block
whose `[start, end]` interval contains its timestamp, or which is active and
whose fixed five-hour window (`start + 5h`, hard-coded) contains it. -/
def tryAssign (now : ℕ) : List SessionBlockM → Entry → Option (List SessionBlockM)
  | [], _ => none
  | b :: rest, e =>
    if (b.start_time ≤ e.timestamp ∧ e.timestamp ≤ b.end_time) ∨
       (b.is_active = true ∧ b.start_time ≤ e.timestamp ∧
        e.timestamp ≤ b.start_time + 18000) then
      some (addAndMaybeExtend now b e :: rest)
    else (tryAssign now rest e).map (fun bs => b :: bs)

/-- Second loop of `_merge_new_entries`: extend the first block whose end
lies strictly less than the entry's timestamp by at most the five-minute
session gap (`0 < time_since_last ≤ 5` minutes). -/
def tryExtendGap (now : ℕ) : List SessionBlockM → Entry → Option (List SessionBlockM)
  | [], _ => none
  | b :: rest, e =>
    if b.end_time < e.timestamp ∧ e.timestamp ≤ b.end_time + 300 then
      some ({ addEntryToBlock now b e with end_time := e.timestamp } :: rest)
    else (tryExtendGap now rest e).map (fun bs => b :: bs)

/-- Merging one new entry: try assignment, then gap extension, otherwise
create a fresh block whose start is the raw entry timestamp (not rounded)
and whose end is start plus the session duration, and re-sort the block list
by start time (Python's stable sort; insertion sort with `≤` yields the same
unique stable reordering). -/
def mergeEntry (h now : ℕ) (blocks : List SessionBlockM) (e : Entry) :
    List SessionBlockM :=
  match tryAssign now blocks e with
  | some bs => bs
  | none =>
    match tryExtendGap now blocks e with
    | some bs => bs
    | none =>
      let nb := addEntryToBlock now (mkBlock e.timestamp (e.timestamp + h * 3600)) e
      (blocks ++ [nb]).insertionSort (fun a b => a.start_time ≤ b.start_time)

/-- The per-entry phase of `_merge_new_entries`. -/
def mergePass (h now : ℕ) (blocks : List SessionBlockM) (entries : List Entry) :
    List SessionBlockM :=
  entries.foldl (mergeEntry h now) blocks

/-- Apply a function to the last element of a list, if any. -/
def updateLastBlock (f : SessionBlockM → SessionBlockM) :
    List SessionBlockM → List SessionBlockM
  | [] => []
  | [b] => [f b]
  | b :: rest => b :: updateLastBlock f rest

/-- Active-status maintenance at the end of `_merge_new_entries`: only when
less than the hard-coded five hours have elapsed since the last block's
start is its flag written, becoming true exactly when less than ten minutes
separate `now` from the block's end time; otherwise the flag is left as it
was. -/
def activeFlagUpdate (now : ℕ) (b : SessionBlockM) : SessionBlockM :=
  if now < b.start_time + 18000 then
    { b with is_active := decide (now < b.end_time + 600) }
  else b

/-- `_merge_new_entries`: merge each entry then refresh the last block's
active flag. -/
def mergeNewEntries (h now : ℕ) (blocks : List SessionBlockM)
    (entries : List Entry) : List SessionBlockM :=
  updateLastBlock (activeFlagUpdate now) (mergePass h now blocks entries)

/-- Tokens of one entry as counted by the burn-rate loop:
`usage.get('input_tokens', 0) + usage.get('output_tokens', 0)`. -/
def entryTokens (e : Entry) : ℕ :=
  match e.usage with
  | none => 0
  | some u => u.input_tokens + u.output_tokens

/-- Entry collection of `calculate_hourly_burn_rate` for a window of `wsec`
seconds: blocks whose end predates the window start and which are inactive
are skipped, and from the remaining blocks the entries with timestamp at or
after `now - wsec` are taken (comparisons written additively, matching the
integer datetime arithmetic of the source). -/
def collectWindow (wsec now : ℕ) (blocks : List SessionBlockM) : List Entry :=
  (blocks.filter (fun b => !(decide (b.end_time + wsec < now) && !b.is_active))).flatMap
    (fun b => b.entries.filter (fun e => decide (now ≤ e.timestamp + wsec)))

/-- Smallest timestamp of a nonempty entry list (the `earliest_entry`
tracking loop); 0 on the empty list, which the caller rules out. -/
def minTs : List Entry → ℕ
  | [] => 0
  | e :: rest => rest.foldl (fun a x => min a x.timestamp) e.timestamp

/-- Largest timestamp of a nonempty entry list (`latest_entry`). -/
def maxTs : List Entry → ℕ
  | [] => 0
  | e :: rest => rest.foldl (fun a x => max a x.timestamp) e.timestamp

/-- Rate computation on the collected entries: the span in minutes between
the earliest and latest entry; below five minutes the rate is extrapolated
as tokens over the actual span only when tokens are positive and the span
strictly exceeds one minute, else 0; otherwise tokens over the span. -/
def rateFromEntries (es : List Entry) : ℚ :=
  let toks : ℕ := (es.map entryTokens).sum
  let span : ℚ := ((maxTs es : ℚ) - (minTs es : ℚ)) / 60
  if span < 5 then
    if 0 < toks ∧ 1 < span then (toks : ℚ) / span else 0
  else (toks : ℚ) / span

/-- `calculate_hourly_burn_rate` over the block list: collect entries of the
last hour, fall back to the last two hours when none were found, return 0
when still empty, else the rate. -/
def hourlyBurnRate (now : ℕ) (blocks : List SessionBlockM) : ℚ :=
  let e1 := collectWindow 3600 now blocks
  let es := if e1.isEmpty then collectWindow 7200 now blocks else e1
  if es.isEmpty then 0 else rateFromEntries es

/-- Window collection as the specification words it: all entries with
timestamp at or after `now - wsec`, with no per-block skipping. -/
def collectWindowSpec (wsec now : ℕ) (entries : List Entry) : List Entry :=
  entries.filter (fun e => decide (now ≤ e.timestamp + wsec))

/-- The burn rate as the amended claim C4 words it, directly over the entry
sequence: one-hour window with two-hour fallback, extrapolation from the
actual span only when it strictly exceeds one minute. -/
def hourlyBurnRateSpec (now : ℕ) (entries : List Entry) : ℚ :=
  let e1 := collectWindowSpec 3600 now entries
  let es := if e1.isEmpty then collectWindowSpec 7200 now entries else e1
  if es.isEmpty then 0 else rateFromEntries es

/-- The burn rate as original claim C4 words it: once tokens are nonzero and
the span is under five minutes, the rate is extrapolated from the actual
span with a minimum span of one minute, rather than reporting zero. -/
def hourlyBurnRateClaimC4 (now : ℕ) (entries : List Entry) : ℚ :=
  let e1 := collectWindowSpec 3600 now entries
  let es := if e1.isEmpty then collectWindowSpec 7200 now entries else e1
  if es.isEmpty then 0
  else
    let toks : ℕ := (es.map entryTokens).sum
    let span : ℚ := ((maxTs es : ℚ) - (minTs es : ℚ)) / 60
    if span < 5 then
      if 0 < toks then (toks : ℚ) / max 1 span else 0
    else (toks : ℚ) / span

/-- `_get_current_block` (lookup part): the first block whose
`[start, end)` window contains the current time. -/
def currentBlock (now : ℕ) : List SessionBlockM → Option SessionBlockM
  | [] => none
  | b :: rest =>
    if b.start_time ≤ now ∧ now < b.end_time then some b else currentBlock now rest

/-- Result of `get_current_session_prompts`; the `pattern` field of the
source dict comes from the bounds calculator and is independent of the block
list, so it is omitted here. -/
structure SessionPromptStats where
  prompts_used : ℕ
  messages_sent : ℕ
  multiplication_factor : ℚ
  deriving DecidableEq, Repr

/-- `get_current_session_prompts`: statistics of the current block, or
zeros — in particular a multiplication factor of 0 — when no block contains
the current time. -/
def getCurrentSessionPrompts (now : ℕ) (blocks : List SessionBlockM) :
    SessionPromptStats :=
  match currentBlock now blocks with
  | none => ⟨0, 0, 0⟩
  | some b => ⟨b.user_prompt_count, b.assistant_message_count, b.multiplication_factor⟩

/-- Dedup-hash bookkeeping of the per-line loop in isolation: the set of
seen hashes after processing the lines (hashes are recorded independently of
whether the entry passes validation, as in the source). -/
def seenAfter : List LogLine → List String → List String
  | [], seen => seen
  | l :: rest, seen =>
    match l with
    | none => seenAfter rest seen
    | some e =>
      if hasIds e then
        if dedupKey e ∈ seen then seenAfter rest seen
        else seenAfter rest (dedupKey e :: seen)
      else seenAfter rest seen

/-- Does a line carry both dedup identifiers (vacuously true for malformed
lines, which contribute no entry)? -/
def lineHasIds : LogLine → Bool
  | none => true
  | some e => hasIds e

/-- Sample assistant entry with the given timestamp and input-token count,
used for concrete evaluations. -/
def entryTok (ts n : ℕ) : Entry :=
  ⟨ts, .assistant, some ⟨n, 0, 0, 0⟩, .cnone, none, none⟩

/-- Sample parsed line lacking both dedup identifiers. -/
def rawNoId : RawEntry := ⟨some 0, .user, none, .cnone, none, none⟩

/-- The normalized entry `rawNoId` validates to. -/
def entryNoId : Entry := ⟨0, .user, none, .cnone, none, none⟩

/-- Sample parsed line carrying both dedup identifiers. -/
def rawWithId : RawEntry := ⟨some 5, .user, none, .cnone, some "m", some "r"⟩

/-- Concrete block for the active-flag scenario: the window [0, 18000) with
one entry, currently flagged active. -/
def blockC8 : SessionBlockM :=
  { mkBlock 0 18000 with is_active := true, entries := [entryTok 17000 1] }

/-- Concrete blocks for the burn-rate example: 1000 tokens across a
two-minute span. -/
def exampleBlocksC4 : List SessionBlockM :=
  [{ mkBlock 7200 25200 with entries := [entryTok 9880 400, entryTok 10000 600] }]

/-- Concrete blocks for the burn-rate counterexample: 1000 tokens across a
one-minute span. -/
def cexBlocksC4 : List SessionBlockM :=
  [{ mkBlock 7200 25200 with entries := [entryTok 9940 400, entryTok 10000 600] }]

/-! ## Supporting lemmas -/

/-- A metric whose burn rate is positive and whose usage has reached the
mean estimate predicts zero hours to the limit. -/
lemma predictMetric_eq_zero (limits : SessionLimits) (usage rate : Metric → ℚ)
    (m : Metric) (hu : (limits m).mean ≤ usage m) (hr : 0 < rate m) :
    predictMetric limits usage rate m = some 0 := by
  have hq : ((limits m).mean - usage m) / rate m ≤ 0 :=
    div_nonpos_iff.mpr (Or.inr ⟨sub_nonpos.mpr hu, hr.le⟩)
  simp only [predictMetric, if_pos hr]
  exact congrArg some (max_eq_left hq)

/-- A metric whose burn rate is not positive predicts infinity. -/
lemma predictMetric_eq_none (limits : SessionLimits) (usage rate : Metric → ℚ)
    (m : Metric) (hr : ¬ 0 < rate m) :
    predictMetric limits usage rate m = none := by
  simp only [predictMetric, if_neg hr]

/-- Evaluation of the point estimate on an all-zero six-element history:
the median of the (unfiltered-equal) last observations is 0. -/
lemma pointEstimate_zeros : pointEstimate [0, 0, 0, 0, 0, 0] = 0 := by
  norm_num [pointEstimate, percentile, lastN, List.insertionSort,
    List.orderedInsert, List.getD, List.filter,
    show Int.toNat 2 = 2 from rfl, show Int.toNat 3 = 3 from rfl,
    show Int.toNat 1 = 1 from rfl]

/-- Evaluation of the point estimate on the history [0, 0, 0, 1, 1, 1]: the
IQR filter keeps everything and the median is 1/2. -/
lemma pointEstimate_halfMix : pointEstimate [0, 0, 0, 1, 1, 1] = 1/2 := by
  norm_num [pointEstimate, percentile, lastN, List.insertionSort,
    List.orderedInsert, List.getD, List.filter,
    show Int.toNat 2 = 2 from rfl, show Int.toNat 3 = 3 from rfl,
    show Int.toNat 1 = 1 from rfl]

/-- Evaluation of the point estimate on a constant history of fives. -/
lemma pointEstimate_fives : pointEstimate [5, 5, 5, 5, 5] = 5 := by
  norm_num [pointEstimate, percentile, lastN, List.insertionSort,
    List.orderedInsert, List.getD, List.filter,
    show Int.toNat 2 = 2 from rfl, show Int.toNat 3 = 3 from rfl,
    show Int.toNat 1 = 1 from rfl]

/-- Usage aggregation does not move the block window. -/
lemma addUsage_start (b : SessionBlockM) (e : Entry) :
    (addUsage b e).start_time = b.start_time := by
  cases hu : e.usage <;> simp [addUsage, hu]

/-- Usage aggregation does not move the block window. -/
lemma addUsage_end (b : SessionBlockM) (e : Entry) :
    (addUsage b e).end_time = b.end_time := by
  cases hu : e.usage <;> simp [addUsage, hu]

/-- Usage aggregation does not change the entry list. -/
lemma addUsage_entries (b : SessionBlockM) (e : Entry) :
    (addUsage b e).entries = b.entries := by
  cases hu : e.usage <;> simp [addUsage, hu]

/-- Usage aggregation does not change the multiplication factor. -/
lemma addUsage_factor (b : SessionBlockM) (e : Entry) :
    (addUsage b e).multiplication_factor = b.multiplication_factor := by
  cases hu : e.usage <;> simp [addUsage, hu]

/-- Usage aggregation does not change the prompt count. -/
lemma addUsage_prompts (b : SessionBlockM) (e : Entry) :
    (addUsage b e).user_prompt_count = b.user_prompt_count := by
  cases hu : e.usage <;> simp [addUsage, hu]

/-- Adding an entry does not move the block window. -/
lemma addEntryToBlock_start (now : ℕ) (b : SessionBlockM) (e : Entry) :
    (addEntryToBlock now b e).start_time = b.start_time := by
  cases he : e.etype <;> simp only [addEntryToBlock, he] <;>
    (try split_ifs) <;> simp [addUsage_start]

/-- Adding an entry does not move the block window. -/
lemma addEntryToBlock_end (now : ℕ) (b : SessionBlockM) (e : Entry) :
    (addEntryToBlock now b e).end_time = b.end_time := by
  cases he : e.etype <;> simp only [addEntryToBlock, he] <;>
    (try split_ifs) <;> simp [addUsage_end]

/-- Adding an entry appends it to the block's entry list (the source appends
before any early return). -/
lemma addEntryToBlock_entries (now : ℕ) (b : SessionBlockM) (e : Entry) :
    (addEntryToBlock now b e).entries = b.entries ++ [e] := by
  cases he : e.etype <;> simp only [addEntryToBlock, he] <;>
    (try split_ifs) <;> simp [addUsage_entries]

/-- Adding an entry never touches the multiplication factor. -/
lemma addEntryToBlock_factor (now : ℕ) (b : SessionBlockM) (e : Entry) :
    (addEntryToBlock now b e).multiplication_factor = b.multiplication_factor := by
  cases he : e.etype <;> simp only [addEntryToBlock, he] <;>
    (try split_ifs) <;> simp [addUsage_factor]

/-- Adding an entry can only keep or increment the prompt count. -/
lemma addEntryToBlock_prompts (now : ℕ) (b : SessionBlockM) (e : Entry) :
    (addEntryToBlock now b e).user_prompt_count = b.user_prompt_count ∨
    (addEntryToBlock now b e).user_prompt_count = b.user_prompt_count + 1 := by
  cases he : e.etype <;> simp only [addEntryToBlock, he] <;>
    (try split_ifs) <;> simp [addUsage_prompts]

/-- The window of a freshly created rebuild block. -/
lemma startBlock_start (h now : ℕ) (e : Entry) :
    (startBlock h now e).start_time = roundToHour e.timestamp := by
  simp [startBlock, addEntryToBlock_start, mkBlock]

/-- The window of a freshly created rebuild block. -/
lemma startBlock_end (h now : ℕ) (e : Entry) :
    (startBlock h now e).end_time = roundToHour e.timestamp + h * 3600 := by
  simp [startBlock, addEntryToBlock_end, mkBlock]

/-- A freshly created rebuild block owns exactly its triggering entry. -/
lemma startBlock_entries (h now : ℕ) (e : Entry) :
    (startBlock h now e).entries = [e] := by
  simp [startBlock, addEntryToBlock_entries, mkBlock]

/-- Hour-aligned timestamps are below every later timestamp's hour
rounding. -/
lemma le_roundToHour (a t : ℕ) (hal : a % 3600 = 0) (hle : a ≤ t) :
    a ≤ roundToHour t := by
  have ha : a / 3600 * 3600 = a := Nat.div_mul_cancel (Nat.dvd_of_mod_eq_zero hal)
  calc a = a / 3600 * 3600 := ha.symm
    _ ≤ t / 3600 * 3600 := Nat.mul_le_mul_right 3600 (Nat.div_le_div_right hle)
    _ = roundToHour t := rfl

/-- The hour rounding is hour-aligned. -/
lemma roundToHour_mod (t : ℕ) : roundToHour t % 3600 = 0 := by
  simp [roundToHour, Nat.mul_mod_left]

/-- Every property preserved by entry addition and established by block
creation holds for all blocks the rebuild loop produces. -/
lemma buildAux_forall (h now : ℕ) (Q : SessionBlockM → Prop)
    (hadd : ∀ b e, Q b → Q (addEntryToBlock now b e))
    (hnew : ∀ e, Q (startBlock h now e)) :
    ∀ (rest : List Entry) (cur : SessionBlockM), Q cur →
      ∀ b ∈ buildAux h now rest cur, Q b := by
  intro rest
  induction rest with
  | nil =>
    intro cur hQ b hb
    simp only [buildAux, List.mem_singleton] at hb
    exact hb ▸ hQ
  | cons e rest ih =>
    intro cur hQ b hb
    simp only [buildAux] at hb
    by_cases hle : cur.end_time ≤ e.timestamp
    · rw [if_pos hle] at hb
      rcases List.mem_cons.mp hb with rfl | hb
      · exact hQ
      · exact ih (startBlock h now e) (hnew e) b hb
    · rw [if_neg hle] at hb
      exact ih _ (hadd cur e hQ) b hb

/-- Chain structure of the rebuild loop: starting from a block with an
hour-aligned end time, every produced block starts at or after the current
block's start, and consecutive windows never overlap. -/
lemma buildAux_chain (h now : ℕ) :
    ∀ (rest : List Entry) (cur : SessionBlockM),
      cur.end_time % 3600 = 0 → cur.start_time ≤ cur.end_time →
      (∀ b ∈ buildAux h now rest cur, cur.start_time ≤ b.start_time) ∧
      List.Pairwise (fun a b => a.end_time ≤ b.start_time) (buildAux h now rest cur) := by
  intro rest
  induction rest with
  | nil =>
    intro cur _ _
    constructor
    · intro b hb
      simp only [buildAux, List.mem_singleton] at hb
      exact hb ▸ le_refl _
    · simp [buildAux]
  | cons e rest ih =>
    intro cur hal hse
    by_cases hle : cur.end_time ≤ e.timestamp
    · have hnbal : (startBlock h now e).end_time % 3600 = 0 := by
        rw [startBlock_end]
        simp [roundToHour, Nat.add_mul_mod_self_right, Nat.mul_mod_left]
      have hnbse : (startBlock h now e).start_time ≤ (startBlock h now e).end_time := by
        rw [startBlock_start, startBlock_end]
        exact Nat.le_add_right _ _
      have hkey : cur.end_time ≤ (startBlock h now e).start_time := by
        rw [startBlock_start]
        exact le_roundToHour _ _ hal hle
      obtain ⟨ih1, ih2⟩ := ih (startBlock h now e) hnbal hnbse
      simp only [buildAux, if_pos hle]
      constructor
      · intro b hb
        rcases List.mem_cons.mp hb with rfl | hb
        · exact le_refl _
        · exact le_trans (le_trans hse hkey) (ih1 b hb)
      · exact List.pairwise_cons.mpr
          ⟨fun b hb => le_trans hkey (ih1 b hb), ih2⟩
    · have h1 := addEntryToBlock_start now cur e
      have h2 := addEntryToBlock_end now cur e
      obtain ⟨ih1, ih2⟩ := ih (addEntryToBlock now cur e)
        (h2 ▸ hal) (h1 ▸ h2 ▸ hse)
      simp only [buildAux, if_neg hle]
      exact ⟨fun b hb => h1 ▸ ih1 b hb, ih2⟩

/-- The rebuild loop distributes the entry sequence over the blocks in
order: concatenating the produced blocks' entry lists recovers the current
block's entries followed by the remaining input. -/
lemma buildAux_flatMap (h now : ℕ) :
    ∀ (rest : List Entry) (cur : SessionBlockM),
      (buildAux h now rest cur).flatMap SessionBlockM.entries = cur.entries ++ rest := by
  intro rest
  induction rest with
  | nil =>
    intro cur
    simp [buildAux]
  | cons e rest ih =>
    intro cur
    by_cases hle : cur.end_time ≤ e.timestamp
    · simp only [buildAux, if_pos hle, List.flatMap_cons]
      rw [ih (startBlock h now e), startBlock_entries]
      simp
    · simp only [buildAux, if_neg hle]
      rw [ih (addEntryToBlock now cur e), addEntryToBlock_entries]
      simp
/-- Finalization does not move the block window. -/
lemma finalizeBlock_start (now : ℕ) (b : SessionBlockM) :
    (finalizeBlock now b).start_time = b.start_time := by
  cases hl : b.entries.getLast? <;> simp [finalizeBlock, hl]

/-- Finalization does not move the block window. -/
lemma finalizeBlock_end (now : ℕ) (b : SessionBlockM) :
    (finalizeBlock now b).end_time = b.end_time := by
  cases hl : b.entries.getLast? <;> simp [finalizeBlock, hl]

/-- Finalization does not change the entry list. -/
lemma finalizeBlock_entries (now : ℕ) (b : SessionBlockM) :
    (finalizeBlock now b).entries = b.entries := by
  cases hl : b.entries.getLast? <;> simp [finalizeBlock, hl]

/-- Finalizing every block preserves the concatenation of entries. -/
lemma flatMap_map_finalize (now : ℕ) (l : List SessionBlockM) :
    (l.map (finalizeBlock now)).flatMap SessionBlockM.entries =
      l.flatMap SessionBlockM.entries := by
  induction l with
  | nil => rfl
  | cons b l ih => simp [List.flatMap_cons, finalizeBlock_entries, ih]

/-- A freshly created rebuild block is hour-aligned with nonempty window. -/
lemma startBlock_aligned (h now : ℕ) (e : Entry) :
    (startBlock h now e).end_time % 3600 = 0 ∧
    (startBlock h now e).start_time ≤ (startBlock h now e).end_time := by
  rw [startBlock_start, startBlock_end]
  exact ⟨by simp [roundToHour, Nat.add_mul_mod_self_right, Nat.mul_mod_left],
    Nat.le_add_right _ _⟩

/-- The current-block lookup returns a member of the list. -/
lemma currentBlock_mem (now : ℕ) :
    ∀ (blocks : List SessionBlockM) (b : SessionBlockM),
      currentBlock now blocks = some b → b ∈ blocks := by
  intro blocks
  induction blocks with
  | nil => intro b hb; simp [currentBlock] at hb
  | cons c rest ih =>
    intro b hb
    by_cases hc : c.start_time ≤ now ∧ now < c.end_time
    · rw [currentBlock, if_pos hc, Option.some_inj] at hb
      exact hb ▸ List.mem_cons_self c rest
    · rw [currentBlock, if_neg hc] at hb
      exact List.mem_cons_of_mem c (ih b hb)

/-- The active-flag refresh does not move the block window. -/
lemma activeFlagUpdate_start (now : ℕ) (b : SessionBlockM) :
    (activeFlagUpdate now b).start_time = b.start_time := by
  unfold activeFlagUpdate; split_ifs <;> rfl

/-- The active-flag refresh does not move the block window. -/
lemma activeFlagUpdate_end (now : ℕ) (b : SessionBlockM) :
    (activeFlagUpdate now b).end_time = b.end_time := by
  unfold activeFlagUpdate; split_ifs <;> rfl

/-- Finalization does not change the prompt count. -/
lemma finalizeBlock_prompts (now : ℕ) (b : SessionBlockM) :
    (finalizeBlock now b).user_prompt_count = b.user_prompt_count := by
  cases hl : b.entries.getLast? <;> simp [finalizeBlock, hl]

/-- Finalization leaves the multiplication factor alone when no user prompt
was counted. -/
lemma finalizeBlock_factor_zero (now : ℕ) (b : SessionBlockM)
    (hz : b.user_prompt_count = 0) :
    (finalizeBlock now b).multiplication_factor = b.multiplication_factor := by
  cases hl : b.entries.getLast? <;> simp [finalizeBlock, hl, hz]

/-- Appending on the right keeps a nonempty list's head. -/
lemma head?_append_of_some {l l' : List Entry} {e : Entry}
    (h : l.head? = some e) : (l ++ l').head? = some e := by
  cases l with
  | nil => simp at h
  | cons a t => simpa using h

/-- The rebuild loop never returns an empty block list. -/
lemma buildAux_ne_nil (h now : ℕ) :
    ∀ (rest : List Entry) (cur : SessionBlockM), buildAux h now rest cur ≠ [] := by
  intro rest
  induction rest with
  | nil => intro cur; simp [buildAux]
  | cons e rest ih =>
    intro cur
    by_cases hle : cur.end_time ≤ e.timestamp
    · simp [buildAux, if_pos hle]
    · simp only [buildAux, if_neg hle]
      exact ih _

/-- A rebuild from a nonempty entry sequence yields at least one block. -/
lemma createSessionBlocks_cons_ne_nil (h now : ℕ) (e : Entry) (rest : List Entry) :
    createSessionBlocks h now (e :: rest) ≠ [] := by
  simp only [createSessionBlocks]
  intro hc
  exact buildAux_ne_nil h now rest (startBlock h now e) (List.map_eq_nil_iff.mp hc)

/-- Updating the last element rewrites a list as its front followed by the
updated last element. -/
lemma updateLastBlock_eq (f : SessionBlockM → SessionBlockM) :
    ∀ (l : List SessionBlockM) (b : SessionBlockM),
      l.getLast? = some b → updateLastBlock f l = l.dropLast ++ [f b] := by
  intro l
  induction l with
  | nil => intro b hb; simp at hb
  | cons c rest ih =>
    intro b hb
    cases rest with
    | nil =>
      simp only [List.getLast?_singleton, Option.some_inj] at hb
      subst hb
      rfl
    | cons d rest2 =>
      rw [List.getLast?_cons_cons] at hb
      have hstep : updateLastBlock f (c :: d :: rest2) =
          c :: updateLastBlock f (d :: rest2) := rfl
      rw [hstep, ih b hb]
      rfl

/-- Entries of a skipped block (window closed before the lookback cutoff and
inactive) never pass the timestamp filter, provided entries do not outlive
their block's end time. -/
lemma filter_entries_nil (w now : ℕ) (b : SessionBlockM)
    (hts : ∀ e ∈ b.entries, e.timestamp ≤ b.end_time)
    (hend : b.end_time + w < now) :
    b.entries.filter (fun e => decide (now ≤ e.timestamp + w)) = [] := by
  rw [List.filter_eq_nil_iff]
  intro e he
  simp only [decide_eq_true_eq, not_le]
  exact lt_of_le_of_lt (Nat.add_le_add_right (hts e he) w) hend

/-- The per-block collection of the burn-rate loop agrees with the direct
filter over all entries, provided entries do not outlive their block's end
time (an invariant of all reachable block states). -/
lemma collectWindow_eq_spec (w now : ℕ) :
    ∀ (blocks : List SessionBlockM),
      (∀ b ∈ blocks, ∀ e ∈ b.entries, e.timestamp ≤ b.end_time) →
      collectWindow w now blocks =
        collectWindowSpec w now (blocks.flatMap SessionBlockM.entries) := by
  intro blocks
  induction blocks with
  | nil => intro _; rfl
  | cons b bs ih =>
    intro hts
    have hb := hts b (List.mem_cons_self b bs)
    have hbs := ih (fun b' hb' => hts b' (List.mem_cons_of_mem b hb'))
    cases hp : (decide (b.end_time + w < now) && !b.is_active) with
    | true =>
      have hend : b.end_time + w < now := by
        have h2 := hp
        simp only [Bool.and_eq_true, decide_eq_true_eq] at h2
        exact h2.1
      have l1 : collectWindow w now (b :: bs) = collectWindow w now bs := by
        simp only [collectWindow, List.filter_cons, hp, Bool.not_true]
        rw [if_neg (by simp)]
      have r1 : collectWindowSpec w now ((b :: bs).flatMap SessionBlockM.entries) =
          collectWindowSpec w now (bs.flatMap SessionBlockM.entries) := by
        simp only [collectWindowSpec, List.flatMap_cons, List.filter_append,
          filter_entries_nil w now b hb hend, List.nil_append]
      rw [l1, r1, hbs]
    | false =>
      have l1 : collectWindow w now (b :: bs) =
          b.entries.filter (fun e => decide (now ≤ e.timestamp + w)) ++
            collectWindow w now bs := by
        simp only [collectWindow, List.filter_cons, hp, Bool.not_false]
        rw [if_pos trivial]
        rw [List.flatMap_cons]
      have r1 : collectWindowSpec w now ((b :: bs).flatMap SessionBlockM.entries) =
          b.entries.filter (fun e => decide (now ≤ e.timestamp + w)) ++
            collectWindowSpec w now (bs.flatMap SessionBlockM.entries) := by
        simp only [collectWindowSpec, List.flatMap_cons, List.filter_append]
      rw [l1, r1, hbs]

/-- Processing a concatenation of line lists processes the second list with
the dedup hashes accumulated by the first. -/
lemma loadLines_append (cutoff : Option ℕ) :
    ∀ (L1 L2 : List LogLine) (seen : List String),
      loadLines cutoff (L1 ++ L2) seen =
        loadLines cutoff L1 seen ++ loadLines cutoff L2 (seenAfter L1 seen) := by
  intro L1
  induction L1 with
  | nil => intro L2 seen; rfl
  | cons l rest ih =>
    intro L2 seen
    cases l with
    | none =>
      simp only [List.cons_append, loadLines, seenAfter]
      exact ih L2 seen
    | some e =>
      simp only [List.cons_append]
      cases hid : hasIds e with
      | true =>
        by_cases hseen : dedupKey e ∈ seen
        · simp [loadLines, seenAfter, hid, hseen, ih]
        · cases hacc : acceptEntry cutoff e with
          | none => simp [loadLines, seenAfter, hid, hseen, hacc, ih]
          | some ne => simp [loadLines, seenAfter, hid, hseen, hacc, ih]
      | false =>
        cases hacc : acceptEntry cutoff e with
        | none => simp [loadLines, seenAfter, hid, hacc, ih]
        | some ne => simp [loadLines, seenAfter, hid, hacc, ih]

/-- The accumulated dedup-hash set only grows. -/
lemma mem_seenAfter (k : String) :
    ∀ (lines : List LogLine) (seen : List String),
      k ∈ seen → k ∈ seenAfter lines seen := by
  intro lines
  induction lines with
  | nil => intro seen hk; exact hk
  | cons l rest ih =>
    intro seen hk
    cases l with
    | none => exact ih seen hk
    | some e =>
      cases hid : hasIds e with
      | true =>
        by_cases hseen : dedupKey e ∈ seen
        · simp only [seenAfter, hid, if_true, if_pos hseen]
          exact ih seen hk
        · simp only [seenAfter, hid, if_true, if_neg hseen]
          exact ih _ (List.mem_cons_of_mem _ hk)
      | false =>
        simp only [seenAfter, hid, Bool.false_eq_true, if_false]
        exact ih seen hk

/-- After processing, the hash of every line that carries both identifiers
is in the accumulated set. -/
lemma key_mem_seenAfter :
    ∀ (lines : List LogLine) (seen : List String) (e : RawEntry),
      some e ∈ lines → hasIds e = true → dedupKey e ∈ seenAfter lines seen := by
  intro lines
  induction lines with
  | nil => intro seen e he; simp at he
  | cons l rest ih =>
    intro seen e he hid
    rcases List.mem_cons.mp he with heq | hmem
    · subst heq
      by_cases hseen : dedupKey e ∈ seen
      · simp only [seenAfter, hid, if_true, if_pos hseen]
        exact mem_seenAfter _ rest seen hseen
      · simp only [seenAfter, hid, if_true, if_neg hseen]
        exact mem_seenAfter _ rest _ (List.mem_cons_self _ _)
    · cases l with
      | none => exact ih seen e hmem hid
      | some e' =>
        cases hid' : hasIds e' with
        | true =>
          by_cases hseen' : dedupKey e' ∈ seen
          · simp only [seenAfter, hid', if_true, if_pos hseen']
            exact ih seen e hmem hid
          · simp only [seenAfter, hid', if_true, if_neg hseen']
            exact ih _ e hmem hid
        | false =>
          simp only [seenAfter, hid', Bool.false_eq_true, if_false]
          exact ih seen e hmem hid

/-- Lines whose dedup hashes were all seen already contribute nothing. -/
lemma loadLines_nil_of_seen (cutoff : Option ℕ) :
    ∀ (lines : List LogLine) (seen : List String),
      (∀ e : RawEntry, some e ∈ lines → hasIds e = true ∧ dedupKey e ∈ seen) →
      loadLines cutoff lines seen = [] := by
  intro lines
  induction lines with
  | nil => intro seen _; rfl
  | cons l rest ih =>
    intro seen hall
    cases l with
    | none =>
      simp only [loadLines]
      exact ih seen (fun e he => hall e (List.mem_cons_of_mem _ he))
    | some e =>
      obtain ⟨hid, hseen⟩ := hall e (List.mem_cons_self _ _)
      simp only [loadLines, hid, if_true, if_pos hseen]
      exact ih seen (fun e' he' => hall e' (List.mem_cons_of_mem _ he'))

/-! ## Claim theorems -/

/-- C2: after a full rebuild, the half-open windows of any two distinct
blocks share no time point, and concatenating the blocks' entry lists in
order recovers the input entry sequence exactly — every entry is owned by
exactly one block. -/
theorem C2_window_partition (h now : ℕ) (entries : List Entry) :
    List.Pairwise
      (fun a b => ∀ t, a.start_time ≤ t → t < a.end_time →
        ¬(b.start_time ≤ t ∧ t < b.end_time))
      (createSessionBlocks h now entries) ∧
    (createSessionBlocks h now entries).flatMap SessionBlockM.entries = entries := by
  cases entries with
  | nil => simp [createSessionBlocks]
  | cons e rest =>
    obtain ⟨hal, hse⟩ := startBlock_aligned h now e
    obtain ⟨_, hpw⟩ := buildAux_chain h now rest (startBlock h now e) hal hse
    constructor
    · simp only [createSessionBlocks, List.pairwise_map]
      refine hpw.imp ?_
      intro a b hab t hat hta hbt
      rw [finalizeBlock_end now a] at hta
      rw [finalizeBlock_start now b] at hbt
      exact absurd (lt_of_lt_of_le hta (le_trans hab hbt.1)) (lt_irrefl t)
    · simp only [createSessionBlocks]
      rw [flatMap_map_finalize, buildAux_flatMap, startBlock_entries]
      rfl

/-- C3 (counterexample): the source compares with strict inequalities
(`normalized > 0.9`, `> 0.8`), so at an observation normalizing to exactly
0.9 the claimed first branch does not fire, and the claimed result of
observing 850 from (α, β) = (4, 2) contradicts the update the code (and the
claim's own rule) performs, which adds (1.5, 1.0). -/
theorem C3_counterexample :
    (9/10 : ℚ) ≤ 900 / 1000 ∧
    LimitBelief.update ⟨4, 2, 1000⟩ 900 ≠ ⟨6, 5/2, 1000⟩ ∧
    LimitBelief.update ⟨4, 2, 1000⟩ 900 = ⟨11/2, 3, 1000⟩ ∧
    LimitBelief.update ⟨4, 2, 1000⟩ 850 ≠ ⟨5, 5/2, 1000⟩ ∧
    LimitBelief.update ⟨4, 2, 1000⟩ 850 = ⟨11/2, 3, 1000⟩ := by
  refine ⟨by norm_num, ?_, ?_, ?_, ?_⟩ <;> norm_num [LimitBelief.update]

/-- C3 (amended): `LimitBelief.update` adds (2.0, 0.5) when the normalized
observation strictly exceeds 0.9, adds (1.5, 1.0) when it strictly exceeds
0.8 but is at most 0.9, and adds (0.5, 2.0) otherwise; from alpha=4, beta=2,
scale=1000, observing 950 yields (6, 2.5) and observing 850 yields
(5.5, 3). -/
theorem C3_update_rule (b : LimitBelief) (x : ℚ) :
    (9/10 < x / b.scale → b.update x = ⟨b.alpha + 2, b.beta + 1/2, b.scale⟩) ∧
    (x / b.scale ≤ 9/10 → 8/10 < x / b.scale →
      b.update x = ⟨b.alpha + 3/2, b.beta + 1, b.scale⟩) ∧
    (x / b.scale ≤ 8/10 → b.update x = ⟨b.alpha + 1/2, b.beta + 2, b.scale⟩) ∧
    LimitBelief.update ⟨4, 2, 1000⟩ 950 = ⟨6, 5/2, 1000⟩ ∧
    LimitBelief.update ⟨4, 2, 1000⟩ 850 = ⟨11/2, 3, 1000⟩ := by
  refine ⟨?_, ?_, ?_, by norm_num [LimitBelief.update], by norm_num [LimitBelief.update]⟩
  · intro h
    simp [LimitBelief.update, if_pos h]
  · intro h1 h2
    simp [LimitBelief.update, if_neg (not_lt.mpr h1), if_pos h2]
  · intro h
    have h9 : ¬ (9/10 : ℚ) < x / b.scale := not_lt.mpr (h.trans (by norm_num))
    simp [LimitBelief.update, if_neg h9, if_neg (not_lt.mpr h)]

/-- C3 (witness): the amended rule applied to the 950 observation. -/
theorem C3_witness : LimitBelief.update ⟨4, 2, 1000⟩ 950 = ⟨6, 5/2, 1000⟩ := by
  have h := (C3_update_rule ⟨4, 2, 1000⟩ 950).1 (by norm_num)
  rw [h]
  norm_num

/-- C5 (counterexample): with the max20x priors, usage at the scale of every
metric meets or exceeds every mean estimate, yet with all burn rates zero
`predict_limit_times` returns infinity (`none`), not 0. -/
theorem C5_counterexample :
    (priorsMax20x .tokens).mean ≤ 400000 ∧
    (priorsMax20x .messages).mean ≤ 2000 ∧
    (priorsMax20x .prompts).mean ≤ 800 ∧
    timeToLimit priorsMax20x
      (fun m => match m with
        | .tokens => 400000 | .messages => 2000 | .prompts => 800)
      (fun _ => 0) ≠ some 0 ∧
    timeToLimit priorsMax20x
      (fun m => match m with
        | .tokens => 400000 | .messages => 2000 | .prompts => 800)
      (fun _ => 0) = none := by
  refine ⟨by norm_num [priorsMax20x, LimitBelief.mean],
    by norm_num [priorsMax20x, LimitBelief.mean],
    by norm_num [priorsMax20x, LimitBelief.mean], ?_, ?_⟩
  · norm_num [timeToLimit, limitingFactor, predictMetric, predLt]
    exact fun h => Option.noConfusion h
  · norm_num [timeToLimit, limitingFactor, predictMetric, predLt]

/-- C5 (amended): whenever every metric's current usage meets or exceeds its
mean estimate and at least one metric has a positive burn rate, the
predicted time to limit is 0. -/
theorem C5_already_exceeded (limits : SessionLimits) (usage rate : Metric → ℚ)
    (hu : ∀ m, (limits m).mean ≤ usage m) (hr : ∃ m, 0 < rate m) :
    timeToLimit limits usage rate = some 0 := by
  have hcase : ∀ m, predictMetric limits usage rate m = none ∨
      predictMetric limits usage rate m = some 0 := by
    intro m
    by_cases h : 0 < rate m
    · exact Or.inr (predictMetric_eq_zero limits usage rate m (hu m) h)
    · exact Or.inl (predictMetric_eq_none limits usage rate m h)
  obtain ⟨m0, hm0⟩ := hr
  have h0 : predictMetric limits usage rate m0 = some 0 :=
    predictMetric_eq_zero limits usage rate m0 (hu m0) hm0
  rcases hcase .tokens with ht | ht <;>
    rcases hcase .messages with hm | hm <;>
    rcases hcase .prompts with hp | hp <;>
    simp only [timeToLimit, limitingFactor, predLt, ht, hm, hp] <;>
    (cases m0 <;> simp_all)

/-- C5 (witness): the amended prediction at the max20x priors with saturated
usage and a unit token burn rate. -/
theorem C5_witness :
    timeToLimit priorsMax20x
      (fun m => match m with
        | .tokens => 400000 | .messages => 2000 | .prompts => 800)
      (fun _ => 1) = some 0 :=
  C5_already_exceeded _ _ _
    (by intro m; cases m <;> norm_num [priorsMax20x, LimitBelief.mean])
    ⟨.tokens, by norm_num⟩

/-- C9 (code evaluated at the failing input): a history whose last
observations are all zero gives point estimate 0; after the swap the zero
multiplier becomes the divisor of the optimistic bound and the computation
raises `ZeroDivisionError` (modelled as `none`) instead of returning a
`PromptBounds`. -/
theorem C9_zero_history_raises :
    calculateBounds [0, 0, 0, 0, 0, 0] 900 0 (4/5) = none ∧
    pointEstimate [0, 0, 0, 0, 0, 0] = 0 := by
  refine ⟨?_, pointEstimate_zeros⟩
  norm_num [calculateBounds, pointEstimate_zeros]

/-- C1 (counterexample): with history [0, 0, 0, 1, 1, 1] the point estimate
(median) is 1/2, so the clamped upper multiplier 0.55 falls below the
clamped lower multiplier 1 and the swap guard exchanges them; the bounds
actually returned differ from the claimed `max(1, 0.9 m)` / `1.1 m`
assignment. -/
theorem C1_counterexample :
    calculateBounds [0, 0, 0, 1, 1, 1] 900 0 (4/5) ≠
      calculateBoundsClaimC1 [0, 0, 0, 1, 1, 1] 900 0 (4/5) ∧
    pointEstimate [0, 0, 0, 1, 1, 1] = 1/2 := by
  refine ⟨?_, pointEstimate_halfMix⟩
  norm_num [calculateBounds, calculateBoundsClaimC1, pointEstimate_halfMix, truncQ]

/-- C1 (amended): whenever the point estimate is at least 10/11 — in
particular for every history reachable through the reader, whose
observations are positive integers — the final multipliers used to divide
the message limit are exactly `max(1, 0.9 m)` (lower) and `1.1 m` (upper),
independently of the confidence argument and of the statistically derived
spread; below 10/11 the swap guard reorders them. -/
theorem C1_final_clamp (history : List ℚ) (limit used : ℤ) (confidence : ℚ)
    (hm : 10/11 ≤ pointEstimate history) :
    calculateBounds history limit used confidence =
      calculateBoundsClaimC1 history limit used confidence := by
  have hmpos : (0 : ℚ) ≤ pointEstimate history := le_trans (by norm_num) hm
  have hup : (1 : ℚ) ≤ pointEstimate history * (11/10) := by
    calc (1 : ℚ) = (10/11) * (11/10) := by norm_num
    _ ≤ pointEstimate history * (11/10) := by
        apply mul_le_mul_of_nonneg_right hm (by norm_num)
  have hnoswap : ¬ pointEstimate history * (11/10) <
      max 1 (pointEstimate history * (9/10)) := by
    rw [not_lt, max_le_iff]
    constructor
    · exact hup
    · apply mul_le_mul_of_nonneg_left _ hmpos
      norm_num
  have hne : ¬ max 1 (pointEstimate history * (9/10)) = 0 := by
    have : (1 : ℚ) ≤ max 1 (pointEstimate history * (9/10)) := le_max_left _ _
    intro h
    rw [h] at this
    norm_num at this
  simp only [calculateBounds, calculateBoundsClaimC1, if_neg hnoswap, if_neg hne]

/-- C1 (witness): the amended clamp at a constant history of fives. -/
theorem C1_witness :
    calculateBounds [5, 5, 5, 5, 5] 900 50 (4/5) =
      calculateBoundsClaimC1 [5, 5, 5, 5, 5] 900 50 (4/5) :=
  C1_final_clamp [5, 5, 5, 5, 5] 900 50 (4/5)
    (by rw [pointEstimate_fives]; norm_num)

/-- C7 (counterexample): merging a 00:30 entry into an empty block list
creates a block starting at the raw timestamp 1800, not at the claimed
hour rounding 0. -/
theorem C7_counterexample :
    (mergeNewEntries 5 3600 [] [entryTok 1800 1]).map
      (fun b => b.start_time) = [1800] ∧
    roundToHour 1800 = 0 ∧ (1800 : ℕ) ≠ 0 := by
  refine ⟨by decide, by decide, by decide⟩

/-- C7 (amended): blocks created during full rebuild start at their
triggering (first) entry's timestamp rounded down to the top of the hour and
end a session duration later; blocks created while merging new entries start
at the raw triggering timestamp (no rounding) and end a session duration
later. -/
theorem C7_block_creation (h now : ℕ) :
    (∀ (entries : List Entry) (b : SessionBlockM),
        b ∈ createSessionBlocks h now entries →
        ∃ e, b.entries.head? = some e ∧
          b.start_time = roundToHour e.timestamp ∧
          b.end_time = b.start_time + h * 3600) ∧
    (∀ e : Entry,
        (mergeNewEntries h now [] [e]).map
          (fun b => (b.start_time, b.end_time)) =
        [(e.timestamp, e.timestamp + h * 3600)]) := by
  constructor
  · have hadd : ∀ (b : SessionBlockM) (e : Entry),
        (∃ e0, b.entries.head? = some e0 ∧
          b.start_time = roundToHour e0.timestamp ∧
          b.end_time = b.start_time + h * 3600) →
        ∃ e0, (addEntryToBlock now b e).entries.head? = some e0 ∧
          (addEntryToBlock now b e).start_time = roundToHour e0.timestamp ∧
          (addEntryToBlock now b e).end_time =
            (addEntryToBlock now b e).start_time + h * 3600 := by
      intro b e ⟨e0, h1, h2, h3⟩
      refine ⟨e0, ?_, ?_, ?_⟩
      · rw [addEntryToBlock_entries]
        exact head?_append_of_some h1
      · rw [addEntryToBlock_start]; exact h2
      · rw [addEntryToBlock_start, addEntryToBlock_end]; exact h3
    have hnew : ∀ e : Entry,
        ∃ e0, (startBlock h now e).entries.head? = some e0 ∧
          (startBlock h now e).start_time = roundToHour e0.timestamp ∧
          (startBlock h now e).end_time =
            (startBlock h now e).start_time + h * 3600 := by
      intro e
      refine ⟨e, ?_, ?_, ?_⟩
      · rw [startBlock_entries]; rfl
      · rw [startBlock_start]
      · rw [startBlock_start, startBlock_end]
    intro entries b hb
    cases entries with
    | nil => simp [createSessionBlocks] at hb
    | cons e0 rest =>
      simp only [createSessionBlocks] at hb
      obtain ⟨a, ha, rfl⟩ := List.mem_map.mp hb
      obtain ⟨e, he1, he2, he3⟩ :=
        buildAux_forall h now _ hadd hnew rest (startBlock h now e0) (hnew e0) a ha
      refine ⟨e, ?_, ?_, ?_⟩
      · rw [finalizeBlock_entries]; exact he1
      · rw [finalizeBlock_start]; exact he2
      · rw [finalizeBlock_end, finalizeBlock_start]; exact he3
  · intro e
    simp only [mergeNewEntries, mergePass, List.foldl_cons, List.foldl_nil,
      mergeEntry, tryAssign, tryExtendGap, List.nil_append,
      List.insertionSort, List.orderedInsert, updateLastBlock, List.map_cons,
      List.map_nil]
    rw [activeFlagUpdate_start, activeFlagUpdate_end,
      addEntryToBlock_start, addEntryToBlock_end]
    rfl

/-- C7 (witness): the amended statement applied to a one-entry rebuild and
to a one-entry merge at 00:30. -/
theorem C7_witness :
    (∃ b ∈ createSessionBlocks 5 3600 [entryTok 1800 1],
      ∃ e, b.entries.head? = some e ∧ b.start_time = roundToHour e.timestamp ∧
        b.end_time = b.start_time + 5 * 3600) ∧
    (mergeNewEntries 5 3600 [] [entryTok 1800 1]).map
      (fun b => (b.start_time, b.end_time)) = [(1800, 1800 + 5 * 3600)] := by
  constructor
  · obtain ⟨b, hmem⟩ := List.exists_mem_of_ne_nil _
      (createSessionBlocks_cons_ne_nil 5 3600 (entryTok 1800 1) [])
    exact ⟨b, hmem, (C7_block_creation 5 3600).1 [entryTok 1800 1] b hmem⟩
  · exact (C7_block_creation 5 3600).2 (entryTok 1800 1)

/-- C10: every rebuilt block in which no genuine user prompt was counted
keeps the hard-coded default multiplication factor 7.7; consequently
`get_current_session_prompts` reports factor 7.7 (not 0) for a current
session block with zero counted prompts, as the concrete one-assistant-entry
session shows. -/
theorem C10_default_factor (h now : ℕ) :
    (∀ (entries : List Entry) (b : SessionBlockM),
        b ∈ createSessionBlocks h now entries →
        b.user_prompt_count = 0 → b.multiplication_factor = 77/10) ∧
    (∀ (entries : List Entry) (b : SessionBlockM),
        currentBlock now (createSessionBlocks h now entries) = some b →
        b.user_prompt_count = 0 →
        (getCurrentSessionPrompts now
          (createSessionBlocks h now entries)).multiplication_factor = 77/10) ∧
    (getCurrentSessionPrompts 200
        (createSessionBlocks 5 200 [entryTok 100 1])).multiplication_factor = 77/10 ∧
    (getCurrentSessionPrompts 200
        (createSessionBlocks 5 200 [entryTok 100 1])).messages_sent = 1 ∧
    (getCurrentSessionPrompts 200
        (createSessionBlocks 5 200 [entryTok 100 1])).prompts_used = 0 ∧
    (77/10 : ℚ) ≠ 0 := by
  have main : ∀ (entries : List Entry) (b : SessionBlockM),
      b ∈ createSessionBlocks h now entries →
      b.user_prompt_count = 0 → b.multiplication_factor = 77/10 := by
    have hadd : ∀ (b : SessionBlockM) (e : Entry),
        (b.user_prompt_count = 0 → b.multiplication_factor = 77/10) →
        ((addEntryToBlock now b e).user_prompt_count = 0 →
          (addEntryToBlock now b e).multiplication_factor = 77/10) := by
      intro b e hQ hz
      rcases addEntryToBlock_prompts now b e with hp | hp
      · rw [addEntryToBlock_factor]
        exact hQ (hp ▸ hz)
      · rw [hz] at hp
        exact absurd hp (Nat.succ_ne_zero _).symm
    have hnew : ∀ e : Entry,
        (startBlock h now e).user_prompt_count = 0 →
        (startBlock h now e).multiplication_factor = 77/10 := by
      intro e _
      rw [startBlock, addEntryToBlock_factor]
      rfl
    intro entries b hb
    cases entries with
    | nil => simp [createSessionBlocks] at hb
    | cons e0 rest =>
      simp only [createSessionBlocks] at hb
      obtain ⟨a, ha, rfl⟩ := List.mem_map.mp hb
      intro hz
      rw [finalizeBlock_prompts] at hz
      rw [finalizeBlock_factor_zero now a hz]
      exact buildAux_forall h now _ hadd hnew rest (startBlock h now e0)
        (hnew e0) a ha hz
  refine ⟨main, ?_, by rfl, by rfl, by rfl, by norm_num⟩
  intro entries b hcb hz
  have hb : b ∈ createSessionBlocks h now entries :=
    currentBlock_mem now (createSessionBlocks h now entries) b hcb
  simp only [getCurrentSessionPrompts, hcb]
  exact main entries b hb hz

/-- C8 (counterexample): a block that started five hours and one minute ago
and was previously active stays flagged active after merging a fresh entry,
because the maintenance step only writes the flag when less than five hours
have elapsed since the block's start — the claim requires it to be marked
inactive once condition (a) fails. -/
theorem C8_counterexample :
    (mergeNewEntries 5 18060 [blockC8] [entryTok 17940 1]).map
      (fun b => b.is_active) = [true] ∧
    (mergeNewEntries 5 18060 [blockC8] [entryTok 17940 1]).map
      (fun b => b.start_time) = [0] ∧
    ¬ (18060 < 0 + 5 * 3600) := by
  refine ⟨by decide, by decide, by decide⟩

/-- C8 (amended): after `_merge_new_entries`, only the most recent block's
flag is touched, and only when less than the hard-coded five hours have
elapsed since its start; in that case it is set to whether less than ten
minutes separate `now` from the block's end time (the proxy for its last
activity); when five hours or more have elapsed the flag keeps its previous
value. -/
theorem C8_active_maintenance (h now : ℕ) (blocks : List SessionBlockM)
    (entries : List Entry) (l : SessionBlockM)
    (hl : (mergePass h now blocks entries).getLast? = some l) :
    mergeNewEntries h now blocks entries =
      (mergePass h now blocks entries).dropLast ++ [activeFlagUpdate now l] ∧
    (now < l.start_time + 18000 →
      (activeFlagUpdate now l).is_active = decide (now < l.end_time + 600)) ∧
    (l.start_time + 18000 ≤ now → activeFlagUpdate now l = l) := by
  refine ⟨updateLastBlock_eq _ _ l hl, ?_, ?_⟩
  · intro hlt
    simp [activeFlagUpdate, if_pos hlt]
  · intro hge
    simp [activeFlagUpdate, if_neg (not_lt.mpr hge)]

/-- C8 (witness): the amended maintenance rule at the concrete stale-block
scenario. -/
theorem C8_witness :
    mergeNewEntries 5 18060 [blockC8] [entryTok 17940 1] =
      (mergePass 5 18060 [blockC8] [entryTok 17940 1]).dropLast ++
        [activeFlagUpdate 18060 (addAndMaybeExtend 18060 blockC8 (entryTok 17940 1))] ∧
    activeFlagUpdate 18060 (addAndMaybeExtend 18060 blockC8 (entryTok 17940 1)) =
      addAndMaybeExtend 18060 blockC8 (entryTok 17940 1) := by
  have h := C8_active_maintenance 5 18060 [blockC8] [entryTok 17940 1]
    (addAndMaybeExtend 18060 blockC8 (entryTok 17940 1)) rfl
  exact ⟨h.1, h.2.2 (by decide)⟩

/-- C4 (counterexample): 1000 tokens across a span of exactly one minute
yield burn rate 0 from the code — the extrapolation requires the span to
strictly exceed one minute — while the claim's reading (extrapolate from the
actual span with a minimum of one minute rather than report zero) yields
1000 tokens/min. -/
theorem C4_counterexample :
    hourlyBurnRate 10000 cexBlocksC4 = 0 ∧
    hourlyBurnRateClaimC4 10000 (cexBlocksC4.flatMap SessionBlockM.entries) = 1000 ∧
    (0 : ℚ) ≠ 1000 := by
  refine ⟨?_, ?_, by norm_num⟩
  · have h1 : collectWindow 3600 10000 cexBlocksC4 =
        [entryTok 9940 400, entryTok 10000 600] := rfl
    simp only [hourlyBurnRate, h1]
    norm_num [rateFromEntries, minTs, maxTs, entryTokens, entryTok]
  · have h1 : collectWindowSpec 3600 10000 (cexBlocksC4.flatMap SessionBlockM.entries) =
        [entryTok 9940 400, entryTok 10000 600] := rfl
    simp only [hourlyBurnRateClaimC4, h1]
    norm_num [minTs, maxTs, entryTokens, entryTok]

/-- C4 (amended): provided no entry outlives its block's end time (true of
all reachable block states), the burn rate equals the direct computation
over the flattened entry sequence: sum input+output tokens of entries within
the last hour (two-hour fallback when empty), and when the span is under
five minutes extrapolate from the actual span only when tokens are positive
and the span strictly exceeds one minute (a span of at most one minute
reports 0); in particular 1000 tokens over a two-minute span yield 500
tokens/min. -/
theorem C4_burn_rate :
    (∀ (now : ℕ) (blocks : List SessionBlockM),
      (∀ b ∈ blocks, ∀ e ∈ b.entries, e.timestamp ≤ b.end_time) →
      hourlyBurnRate now blocks =
        hourlyBurnRateSpec now (blocks.flatMap SessionBlockM.entries)) ∧
    hourlyBurnRate 10000 exampleBlocksC4 = 500 := by
  constructor
  · intro now blocks hts
    simp only [hourlyBurnRate, hourlyBurnRateSpec,
      collectWindow_eq_spec 3600 now blocks hts,
      collectWindow_eq_spec 7200 now blocks hts]
  · have h1 : collectWindow 3600 10000 exampleBlocksC4 =
        [entryTok 9880 400, entryTok 10000 600] := rfl
    simp only [hourlyBurnRate, h1]
    norm_num [rateFromEntries, minTs, maxTs, entryTokens, entryTok]

/-- C4 (witness): the amended equality at the concrete two-minute block
list. -/
theorem C4_witness :
    hourlyBurnRate 10000 exampleBlocksC4 =
      hourlyBurnRateSpec 10000 (exampleBlocksC4.flatMap SessionBlockM.entries) :=
  C4_burn_rate.1 10000 exampleBlocksC4 (by decide)

/-- C6 (counterexample): a well-formed line lacking both identifiers is
never deduplicated, so ingesting it twice yields the entry twice — ingestion
is not dedup-idempotent on such input, contradicting the claim that
processing the same lines twice produces the same sequence as processing
them once. -/
theorem C6_counterexample :
    loadUsageEntries none [some rawNoId, some rawNoId] = [entryNoId, entryNoId] ∧
    loadUsageEntries none [some rawNoId] = [entryNoId] ∧
    ([entryNoId, entryNoId] : List Entry) ≠ [entryNoId] := by
  refine ⟨by decide, by decide, by decide⟩

/-- C6 (amended): when every parsed line carries both (truthy) identifiers,
processing the same lines twice produces the same normalized entry sequence
as processing them once — repeated message-id:request-id pairs collapse to
one occurrence; an accepted entry lacking an identifier is never
deduplicated: ingested twice, it appears twice. -/
theorem C6_dedup_idempotent (cutoff : Option ℕ) :
    (∀ lines : List LogLine, lines.all lineHasIds = true →
      loadUsageEntries cutoff (lines ++ lines) = loadUsageEntries cutoff lines) ∧
    (∀ (e : RawEntry) (ne : Entry), hasIds e = false →
      acceptEntry cutoff e = some ne →
      loadUsageEntries cutoff [some e, some e] = [ne, ne]) := by
  constructor
  · intro lines hall
    unfold loadUsageEntries
    rw [loadLines_append]
    have hnil : loadLines cutoff lines (seenAfter lines []) = [] := by
      apply loadLines_nil_of_seen
      intro e he
      have hid : hasIds e = true := by
        have h2 := List.all_eq_true.mp hall _ he
        simpa [lineHasIds] using h2
      exact ⟨hid, key_mem_seenAfter lines [] e he hid⟩
    rw [hnil, List.append_nil]
  · intro e ne hid hacc
    simp [loadUsageEntries, loadLines, hid, hacc, List.insertionSort,
      List.orderedInsert]

/-- C6 (witness): the amended idempotence at a one-line log carrying both
identifiers. -/
theorem C6_witness :
    loadUsageEntries none ([some rawWithId] ++ [some rawWithId]) =
      loadUsageEntries none [some rawWithId] :=
  (C6_dedup_idempotent none).1 [some rawWithId] (by decide)

/-- C10 (witness): the default factor as reported for the concrete
one-assistant-entry session. -/
theorem C10_witness :
    (getCurrentSessionPrompts 200
      (createSessionBlocks 5 200 [entryTok 100 1])).multiplication_factor = 77/10 :=
  (C10_default_factor 5 200).2.1 [entryTok 100 1]
    (finalizeBlock 200 (startBlock 5 200 (entryTok 100 1))) rfl rfl

end ClaudeDash
